import Mathlib

/-!
Verification of the timeline decision and remapping engine of the
editor_sapiens repository: `ContentAnalyzer.create_speech_segments`
(core/processing_modules.py) and `TimelineRemapper` (core/subtitles.py).

Times are modelled as exact rationals (the source uses Python floats; every
concrete input below is a small decimal, so the arithmetic coincides).
The side-effecting parameters of the source (`pq`, `task_id`, logging, and a
`stop_event` that is never set during a normal run) are not part of the
value-level behaviour and are omitted.
-/

/-- A transcribed word event: `start`/`end` seconds plus the token text
(the `word` attribute of the transcriber's word objects). -/
structure Word where
  start : ℚ
  «end» : ℚ
  word : String
deriving DecidableEq

/-- A kept interval, the dict with keys `start` and `end` used both by
`create_speech_segments` and by `TimelineRemapper`. -/
structure Segment where
  start : ℚ
  «end» : ℚ
deriving DecidableEq

/-- The configuration keys read by `create_speech_segments`, plus the scoring
keys of `Config.DEFAULT_SETTINGS` (`cut_threshold` and the nested `scores`
dict, flattened here) which exist in the configuration but are never read by
the analysis code. -/
structure AnalyzerConfig where
  pause_threshold_s : ℚ
  filler_words : List String
  filler_word_context_pause : ℚ
  min_segment_duration_s : ℚ
  segment_padding_start_s : ℚ
  segment_padding_end_s : ℚ
  cut_threshold : ℚ
  score_pause_long : ℚ
  score_pause_medium : ℚ

/-- The defaults of `Config.DEFAULT_SETTINGS` (config.py), restricted to the
fields above.  `segment_padding_start_s` / `segment_padding_end_s` are not in
`DEFAULT_SETTINGS`; `create_speech_segments` reads them with fallback 0.1. -/
def default_config : AnalyzerConfig where
  pause_threshold_s := 1/2
  filler_words :=
    ["uhm", "hum", "ahn", "é", "hã", "bem", "tipo", "aí", "daí",
     "então", "assim", "meio que", "né", "tá", "viu", "sabe",
     "entende", "certo", "ok", "beleza", "fechou", "na verdade",
     "quer dizer", "ou seja", "basicamente", "literalmente",
     "simplesmente", "realmente", "praticamente", "cara", "meu",
     "véi", "mano", "bicho"]
  filler_word_context_pause := 1/4
  min_segment_duration_s := 1/5
  segment_padding_start_s := 1/10
  segment_padding_end_s := 1/10
  cut_threshold := -7
  score_pause_long := -10
  score_pause_medium := -7

/-- The characters of Python's `strip('.,?!- ')` call. -/
def strip_chars : List Char := ['.', ',', '?', '!', '-', ' ']

/-- Python's `s.strip('.,?!- ')`: drop those characters from both ends. -/
def py_strip (s : String) : String :=
  String.mk (((s.data.dropWhile (· ∈ strip_chars)).reverse.dropWhile
    (· ∈ strip_chars)).reverse)

/-- Python's `s.lower()`, modelled character-wise (ASCII case folding, which
agrees with Python on every token occurring in this development). -/
def py_lower (s : String) : String := String.mk (s.data.map Char.toLower)

/-- The filler normalisation of `create_speech_segments`:
`cur.word.strip('.,?!- ').lower()`. -/
def normalize_token (s : String) : String := py_lower (py_strip s)

/-- The pause-cut test of `create_speech_segments`:
`pause >= pause_threshold`. -/
def pause_cut (cfg : AnalyzerConfig) (pause : ℚ) : Prop :=
  cfg.pause_threshold_s ≤ pause

instance (cfg : AnalyzerConfig) (pause : ℚ) : Decidable (pause_cut cfg pause) := by
  unfold pause_cut; infer_instance

/-- The `i > 0 and cur.start - words[i-1].end > ctx_pause` test, with the
previous word passed as an `Option` (`none` at the first loop index). -/
def prev_gap_exceeds (cfg : AnalyzerConfig) : Option Word → Word → Prop
  | some p, cur => cfg.filler_word_context_pause < cur.start - p.«end»
  | none, _ => False

instance (cfg : AnalyzerConfig) (prev : Option Word) (cur : Word) :
    Decidable (prev_gap_exceeds cfg prev cur) := by
  cases prev <;> unfold prev_gap_exceeds <;> infer_instance

/-- The filler-cut test of `create_speech_segments`:
`is_filler and (pause > ctx_pause or (i > 0 and cur.start - words[i-1].end > ctx_pause))`. -/
def filler_cut (cfg : AnalyzerConfig) (prev : Option Word) (cur nxt : Word) : Prop :=
  normalize_token cur.word ∈ cfg.filler_words ∧
    (cfg.filler_word_context_pause < nxt.start - cur.«end» ∨
      prev_gap_exceeds cfg prev cur)

instance (cfg : AnalyzerConfig) (prev : Option Word) (cur nxt : Word) :
    Decidable (filler_cut cfg prev cur nxt) := by
  unfold filler_cut; infer_instance

/-- `cut_reason` is non-`None` for the pair `(cur, nxt)` exactly when the
pause test or the filler test fires. -/
def cut_decision (cfg : AnalyzerConfig) (prev : Option Word) (cur nxt : Word) : Prop :=
  pause_cut cfg (nxt.start - cur.«end») ∨ filler_cut cfg prev cur nxt

instance (cfg : AnalyzerConfig) (prev : Option Word) (cur nxt : Word) :
    Decidable (cut_decision cfg prev cur nxt) := by
  unfold cut_decision; infer_instance

/-- The boundary resolution on a cut: `segment_end = cur.end + padding_end`
and `next_segment_start_candidate = nxt.start - padding_start`, both replaced
by the pause midpoint `cur.end + pause/2` when they would overlap. -/
def close_boundaries (cfg : AnalyzerConfig) (cur nxt : Word) : ℚ × ℚ :=
  let segment_end := cur.«end» + cfg.segment_padding_end_s
  let candidate := nxt.start - cfg.segment_padding_start_s
  if candidate < segment_end then
    (cur.«end» + (nxt.start - cur.«end») / 2, cur.«end» + (nxt.start - cur.«end») / 2)
  else (segment_end, candidate)

/-- The guarded append: a segment is kept only when
`segment_end - current_start >= min_segment_duration`. -/
def append_if_long (cfg : AnalyzerConfig) (segs : List Segment) (st en : ℚ) :
    List Segment :=
  if cfg.min_segment_duration_s ≤ en - st then segs ++ [⟨st, en⟩] else segs

/-- The word loop of `create_speech_segments`: `prev` is `words[i-1]`, `cur`
is `words[i]`, the remaining words follow, `current_start` is the running
segment start.  When the remaining list is empty, the final segment is closed
at `words[-1].end + padding_end`. -/
def seg_loop (cfg : AnalyzerConfig) :
    Option Word → Word → List Word → ℚ → List Segment → List Segment
  | _, cur, [], current_start, segs =>
      append_if_long cfg segs current_start (cur.«end» + cfg.segment_padding_end_s)
  | prev, cur, nxt :: rest, current_start, segs =>
      if cut_decision cfg prev cur nxt then
        seg_loop cfg (some cur) nxt rest (close_boundaries cfg cur nxt).2
          (append_if_long cfg segs current_start (close_boundaries cfg cur nxt).1)
      else
        seg_loop cfg (some cur) nxt rest current_start segs

/-- `ContentAnalyzer.create_speech_segments` (processing_modules.py): returns
the empty list on empty input, otherwise runs the pair loop starting from
`max(0, words[0].start - padding_start)`. -/
def create_speech_segments (cfg : AnalyzerConfig) (words : List Word) :
    List Segment :=
  match words with
  | [] => []
  | w :: rest => seg_loop cfg none w rest (max 0 (w.start - cfg.segment_padding_start_s)) []

/-- The offset table built by `TimelineRemapper.__init__`: for each segment,
`cumulative_offset += segment.start - last_original_end` (with
`last_original_end` starting at 0), then `last_original_end = segment.end`. -/
def offsets_aux : List Segment → ℚ → ℚ → List ℚ
  | [], _, _ => []
  | s :: rest, last_original_end, cumulative_offset =>
      (cumulative_offset + (s.start - last_original_end)) ::
        offsets_aux rest s.«end» (cumulative_offset + (s.start - last_original_end))

/-- The state built by `TimelineRemapper.__init__` (subtitles.py): the input
segments sorted by `start`, their original starts, and their cumulative
offsets. -/
structure TimelineRemapper where
  _segments : List Segment
  _original_starts : List ℚ
  _offsets : List ℚ

/-- `TimelineRemapper.__init__`: sorts the kept segments by `start`
(Python's stable `sorted`) and builds the parallel start/offset tables. -/
def TimelineRemapper.build (segments_to_keep : List Segment) : TimelineRemapper :=
  let segs := List.insertionSort (fun a b => a.start ≤ b.start) segments_to_keep
  { _segments := segs
    _original_starts := segs.map (·.start)
    _offsets := offsets_aux segs 0 0 }

/-- Python's `bisect.bisect_right` applied to the (sorted) start table: the
number of leading elements that are `≤ x`. -/
def bisect_right (l : List ℚ) (x : ℚ) : ℕ :=
  (l.takeWhile (fun y => decide (y ≤ x))).length

/-- `TimelineRemapper.remap_timestamp`: `None` when the table is empty, when
`bisect_right - 1 < 0`, or when the timestamp lies beyond the end of the
located segment; otherwise `timestamp - offset`. -/
def TimelineRemapper.remap_timestamp (r : TimelineRemapper) (t : ℚ) : Option ℚ :=
  if r._original_starts.isEmpty then none
  else
    let idx := bisect_right r._original_starts t
    if idx = 0 then none
    else
      match r._segments[idx - 1]?, r._offsets[idx - 1]? with
      | some seg, some off => if seg.«end» < t then none else some (t - off)
      | _, _ => none

/-- `TimelineRemapper.remap_event`: remaps both endpoints and keeps the
result only when both succeed and the new end strictly exceeds the new
start. -/
def TimelineRemapper.remap_event (r : TimelineRemapper) (start_time end_time : ℚ) :
    Option (ℚ × ℚ) :=
  match r.remap_timestamp start_time, r.remap_timestamp end_time with
  | some new_start, some new_end =>
      if new_start < new_end then some (new_start, new_end) else none
  | _, _ => none

/-! ### General lemmas about the embedded definitions -/

/-- The sum of the durations of a list of segments. -/
def dur_sum (l : List Segment) : ℚ := (l.map (fun s => s.«end» - s.start)).sum

/-- Sorting an already start-sorted segment list leaves it unchanged. -/
lemma sort_eq_self (l : List Segment)
    (h : List.Chain' (fun a b : Segment => a.start ≤ b.start) l) :
    List.insertionSort (fun a b : Segment => a.start ≤ b.start) l = l := by
  haveI : IsTrans Segment (fun a b : Segment => a.start ≤ b.start) :=
    ⟨fun _ _ _ hab hbc => le_trans hab hbc⟩
  exact List.Sorted.insertionSort_eq (List.chain'_iff_pairwise.mp h)

/-- Non-overlapping well-formed segments are sorted by start. -/
lemma chain_start_of_nonoverlap :
    ∀ l : List Segment, List.Chain' (fun a b : Segment => a.«end» ≤ b.start) l →
      (∀ s ∈ l, s.start ≤ s.«end») →
      List.Chain' (fun a b : Segment => a.start ≤ b.start) l
  | [], _, _ => List.chain'_nil
  | [_], _, _ => List.chain'_singleton _
  | a :: b :: l, h, hd => by
      rw [List.chain'_cons] at h ⊢
      exact ⟨le_trans (hd a (by simp)) h.1,
        chain_start_of_nonoverlap (b :: l) h.2 (fun s hs => hd s (by simp [hs]))⟩

/-- On a start-sorted input, `TimelineRemapper.build` keeps the list as is. -/
lemma build_eq (l : List Segment)
    (hs : List.Chain' (fun a b : Segment => a.start ≤ b.start) l) :
    TimelineRemapper.build l =
      ⟨l, l.map (·.start), offsets_aux l 0 0⟩ := by
  unfold TimelineRemapper.build
  rw [sort_eq_self l hs]

lemma offsets_aux_length : ∀ (l : List Segment) (le c : ℚ),
    (offsets_aux l le c).length = l.length
  | [], _, _ => rfl
  | _ :: rest, _, _ => by
      simp only [offsets_aux, List.length_cons, offsets_aux_length rest]

/-- Closed form of the cumulative offset table: the i-th offset is
`c - le + start_i` minus the total duration of the preceding segments. -/
lemma offsets_aux_getElem? : ∀ (l : List Segment) (le c : ℚ) (i : ℕ)
    (hi : i < l.length),
    (offsets_aux l le c)[i]? =
      some (c - le + (l.get ⟨i, hi⟩).start - dur_sum (l.take i))
  | [], _, _, i, hi => absurd hi (by simp)
  | s :: rest, le, c, 0, _ => by
      simp only [offsets_aux, List.getElem?_cons_zero, List.get, List.take_zero,
        dur_sum, List.map_nil, List.sum_nil, Option.some.injEq]
      ring
  | s :: rest, le, c, i + 1, hi => by
      have hi' : i < rest.length := by simpa using hi
      have ih := offsets_aux_getElem? rest s.«end» (c + (s.start - le)) i hi'
      rw [offsets_aux, List.getElem?_cons_succ, ih]
      have ht : (s :: rest).take (i + 1) = s :: rest.take i := rfl
      have hg : (s :: rest).get ⟨i + 1, hi⟩ = rest.get ⟨i, hi'⟩ := rfl
      rw [ht, hg]
      have hd : dur_sum (s :: rest.take i) =
          (s.«end» - s.start) + dur_sum (rest.take i) := by
        simp [dur_sum]
      rw [hd]
      simp only [Option.some.injEq]
      ring

/-- Consecutive offsets are non-decreasing for non-overlapping segments. -/
lemma offsets_aux_chain : ∀ (l : List Segment) (le c : ℚ),
    List.Chain' (fun a b : Segment => a.«end» ≤ b.start) l →
    List.Chain' (· ≤ ·) (offsets_aux l le c)
  | [], _, _, _ => List.chain'_nil
  | [_], _, _, _ => List.chain'_singleton _
  | a :: b :: l, le, c, h => by
      rw [List.chain'_cons] at h
      rw [offsets_aux, offsets_aux, List.chain'_cons]
      constructor
      · have := h.1; linarith
      · rw [← offsets_aux]
        exact offsets_aux_chain (b :: l) a.«end» (c + (a.start - le)) h.2

/-- Every offset is non-negative when the accumulator is non-negative and the
previous end does not exceed the first start. -/
lemma offsets_aux_nonneg : ∀ (l : List Segment) (le c : ℚ),
    List.Chain' (fun a b : Segment => a.«end» ≤ b.start) l →
    0 ≤ c → (∀ h ∈ l.head?, le ≤ h.start) →
    ∀ o ∈ offsets_aux l le c, 0 ≤ o
  | [], _, _, _, _, _ => by simp [offsets_aux]
  | s :: rest, le, c, hch, hc, hle => by
      have hles : le ≤ s.start := hle s (by simp)
      have hc' : 0 ≤ c + (s.start - le) := by linarith
      intro o ho
      rw [offsets_aux, List.mem_cons] at ho
      rcases ho with rfl | ho
      · exact hc'
      · refine offsets_aux_nonneg rest s.«end» _ (List.chain'_cons'.mp hch).2 hc' ?_ o ho
        intro h hh
        exact (List.chain'_cons'.mp hch).1 h hh

lemma bisect_right_le_length (l : List ℚ) (x : ℚ) : bisect_right l x ≤ l.length :=
  (List.takeWhile_prefix _).length_le

lemma bisect_right_mono (l : List ℚ) {x y : ℚ} (h : x ≤ y) :
    bisect_right l x ≤ bisect_right l y := by
  induction l with
  | nil => simp [bisect_right]
  | cons a l ih =>
      by_cases ha : a ≤ x
      · simp only [bisect_right, List.takeWhile_cons, decide_eq_true ha,
          decide_eq_true (le_trans ha h), List.length_cons]
        exact Nat.succ_le_succ ih
      · simp only [bisect_right, List.takeWhile_cons, decide_eq_false ha, List.length_nil]
        exact Nat.zero_le _

/-- Every position below the bisection point holds a value `≤ x`. -/
lemma bisect_right_elem : ∀ (l : List ℚ) (x : ℚ) (i : ℕ),
    i < bisect_right l x → ∃ a, l[i]? = some a ∧ a ≤ x
  | [], x, i, hi => by simp [bisect_right] at hi
  | a :: l, x, i, hi => by
      by_cases ha : a ≤ x
      · cases i with
        | zero => exact ⟨a, by simp, ha⟩
        | succ j =>
            have hj : j < bisect_right l x := by
              simpa [bisect_right, List.takeWhile_cons, decide_eq_true ha] using hi
            obtain ⟨b, hb, hbx⟩ := bisect_right_elem l x j hj
            exact ⟨b, by simpa using hb, hbx⟩
      · simp [bisect_right, List.takeWhile_cons, decide_eq_false ha] at hi

/-- What a successful `remap_timestamp` lookup on a sorted, non-overlapping,
well-formed table means: the bisection landed on segment `i`, the timestamp
lies between that segment's start and end, and the returned value subtracts
the closed-form offset. -/
lemma remap_some_spec (l : List Segment)
    (hno : List.Chain' (fun a b : Segment => a.«end» ≤ b.start) l)
    (hd : ∀ s ∈ l, s.start ≤ s.«end») (t v : ℚ)
    (h : (TimelineRemapper.build l).remap_timestamp t = some v) :
    ∃ i : ℕ, ∃ hi : i < l.length,
      i = bisect_right (l.map (·.start)) t - 1 ∧
      (l.get ⟨i, hi⟩).start ≤ t ∧ t ≤ (l.get ⟨i, hi⟩).«end» ∧
      v = t - ((l.get ⟨i, hi⟩).start - dur_sum (l.take i)) := by
  rw [build_eq l (chain_start_of_nonoverlap l hno hd)] at h
  unfold TimelineRemapper.remap_timestamp at h
  dsimp only at h
  by_cases hemp : (l.map (·.start) : List ℚ).isEmpty
  · rw [if_pos hemp] at h; exact absurd h (by simp)
  rw [if_neg hemp] at h
  by_cases hb0 : bisect_right (l.map (·.start)) t = 0
  · rw [if_pos hb0] at h; exact absurd h (by simp)
  rw [if_neg hb0] at h
  have hblen : bisect_right (l.map (·.start)) t ≤ l.length := by
    simpa using bisect_right_le_length (l.map (·.start)) t
  have hib : bisect_right (l.map (·.start)) t - 1 < bisect_right (l.map (·.start)) t :=
    Nat.sub_lt (Nat.pos_of_ne_zero hb0) one_pos
  have hi : bisect_right (l.map (·.start)) t - 1 < l.length := lt_of_lt_of_le hib hblen
  obtain ⟨a, ha, hat⟩ := bisect_right_elem (l.map (·.start)) t _ hib
  have hseg : l[bisect_right (l.map (·.start)) t - 1]? =
      some (l.get ⟨bisect_right (l.map (·.start)) t - 1, hi⟩) := by
    rw [List.getElem?_eq_getElem hi]; rfl
  have hoff := offsets_aux_getElem? l 0 0 _ hi
  simp only [hseg, hoff] at h
  have hastart : a = (l.get ⟨bisect_right (l.map (·.start)) t - 1, hi⟩).start := by
    rw [List.getElem?_map, hseg] at ha
    simpa using ha.symm
  by_cases hend : (l.get ⟨bisect_right (l.map (·.start)) t - 1, hi⟩).«end» < t
  · rw [if_pos hend] at h; exact absurd h (by simp)
  rw [if_neg hend] at h
  refine ⟨bisect_right (l.map (·.start)) t - 1, hi, rfl, ?_, not_lt.mp hend, ?_⟩
  · rw [← hastart]; exact hat
  · have hv := (Option.some.injEq _ _).mp h
    rw [← hv]; ring

lemma dur_sum_take_succ (l : List Segment) (i : ℕ) (hi : i < l.length) :
    dur_sum (l.take (i + 1)) =
      dur_sum (l.take i) + ((l.get ⟨i, hi⟩).«end» - (l.get ⟨i, hi⟩).start) := by
  have hget : l[i]? = some (l.get ⟨i, hi⟩) := by
    rw [List.getElem?_eq_getElem hi]; rfl
  rw [List.take_succ, hget]
  simp only [dur_sum, List.map_append, List.sum_append, Option.toList_some,
    List.map_cons, List.map_nil, List.sum_cons, List.sum_nil, add_zero]

lemma dur_sum_take_mono (l : List Segment) (hd : ∀ s ∈ l, s.start ≤ s.«end»)
    {i j : ℕ} (hij : i ≤ j) : dur_sum (l.take i) ≤ dur_sum (l.take j) := by
  induction j, hij using Nat.le_induction with
  | base => exact le_rfl
  | succ k hk ih =>
      by_cases hkl : k < l.length
      · have hmem : l.get ⟨k, hkl⟩ ∈ l := List.get_mem l k hkl
        have := hd _ hmem
        rw [dur_sum_take_succ l k hkl]
        linarith
      · have h1 : l.take (k + 1) = l := List.take_of_length_le (by omega)
        have h2 : l.take k = l := List.take_of_length_le (by omega)
        rw [h1]
        rw [h2] at ih
        exact ih

/-! ### Claim C2 -/

/-- C2 counterexample: for the `TimelineRemapper` built from the kept
intervals of Scenario D, `remap_timestamp(1.5)` returns `0.5`, not the `1.5`
the claim states (the cumulative offset of the first interval already counts
the 1.0 s removed before it). -/
theorem claim_C2_counterexample :
    (TimelineRemapper.build [⟨1, 2⟩, ⟨5, 6⟩]).remap_timestamp (3/2) = some (1/2) ∧
      some ((1:ℚ)/2) ≠ some ((3:ℚ)/2) := by
  constructor
  · norm_num [TimelineRemapper.remap_timestamp, TimelineRemapper.build, offsets_aux,
      bisect_right, List.insertionSort, List.orderedInsert, List.takeWhile_cons]
  · norm_num

/-- C2 (amended): for the remapper built from `[(1,2),(5,6)]`,
`remap_timestamp(0.5)` and `remap_timestamp(3.0)` return `None`, while
`remap_timestamp(1.5)` returns `0.5` and `remap_timestamp(5.5)` returns `1.5`:
the offsets are 1.0 and 4.0 because the code also removes the time before the
first kept interval. -/
theorem claim_C2_scenario_d :
    (TimelineRemapper.build [⟨1, 2⟩, ⟨5, 6⟩]).remap_timestamp (1/2) = none ∧
    (TimelineRemapper.build [⟨1, 2⟩, ⟨5, 6⟩]).remap_timestamp 3 = none ∧
    (TimelineRemapper.build [⟨1, 2⟩, ⟨5, 6⟩]).remap_timestamp (3/2) = some (1/2) ∧
    (TimelineRemapper.build [⟨1, 2⟩, ⟨5, 6⟩]).remap_timestamp (11/2) = some (3/2) := by
  refine ⟨?_, ?_, ?_, ?_⟩ <;>
    norm_num [TimelineRemapper.remap_timestamp, TimelineRemapper.build, offsets_aux,
      bisect_right, List.insertionSort, List.orderedInsert, List.takeWhile_cons]

/-! ### Claim C3 -/

/-- C3 counterexample: with kept intervals `[(0,1),(2,3)]`, the timestamps
`t1 = 1 < t2 = 2` are both successfully remapped, but both map to `1`
(the lookup accepts a timestamp equal to an interval's end), so strict
monotonicity fails. -/
theorem claim_C3_counterexample :
    ((1:ℚ) < 2) ∧
    (TimelineRemapper.build [⟨0, 1⟩, ⟨2, 3⟩]).remap_timestamp 1 = some 1 ∧
    (TimelineRemapper.build [⟨0, 1⟩, ⟨2, 3⟩]).remap_timestamp 2 = some 1 ∧
    ¬ ((1:ℚ) < 1) := by
  refine ⟨by norm_num, ?_, ?_, by norm_num⟩ <;>
    norm_num [TimelineRemapper.remap_timestamp, TimelineRemapper.build, offsets_aux,
      bisect_right, List.insertionSort, List.orderedInsert, List.takeWhile_cons]

/-- C3 (amended): for a remapper built from sorted, non-overlapping,
well-formed kept intervals, remapping is monotone: if `t1 < t2` are both
successfully remapped then `remap(t1) ≤ remap(t2)` (equality can occur at
interval boundaries, since a timestamp equal to an interval's end is
accepted). -/
theorem claim_C3_remap_monotone (l : List Segment)
    (hno : List.Chain' (fun a b : Segment => a.«end» ≤ b.start) l)
    (hd : ∀ s ∈ l, s.start ≤ s.«end»)
    (t1 t2 v1 v2 : ℚ) (ht : t1 < t2)
    (h1 : (TimelineRemapper.build l).remap_timestamp t1 = some v1)
    (h2 : (TimelineRemapper.build l).remap_timestamp t2 = some v2) :
    v1 ≤ v2 := by
  obtain ⟨i1, hi1, hb1, hs1, he1, hv1⟩ := remap_some_spec l hno hd t1 v1 h1
  obtain ⟨i2, hi2, hb2, hs2, he2, hv2⟩ := remap_some_spec l hno hd t2 v2 h2
  have hbmono : bisect_right (l.map (·.start)) t1 ≤ bisect_right (l.map (·.start)) t2 :=
    bisect_right_mono _ ht.le
  have hij : i1 ≤ i2 := by
    rw [hb1, hb2]; exact Nat.sub_le_sub_right hbmono 1
  rcases eq_or_lt_of_le hij with heq | hlt
  · subst heq
    have hgg : l.get ⟨i1, hi2⟩ = l.get ⟨i1, hi1⟩ := rfl
    rw [hgg] at hs2 he2 hv2
    linarith
  · have hdmono := dur_sum_take_mono l hd (Nat.succ_le_of_lt hlt)
    have hdsucc := dur_sum_take_succ l i1 hi1
    linarith

/-- C3 witness: the monotonicity theorem applied to the Scenario D intervals
at `t1 = 1.5 < t2 = 5.5`. -/
theorem claim_C3_witness :
    ((1:ℚ)/2) ≤ 3/2 := by
  have h1 : (TimelineRemapper.build [⟨1, 2⟩, ⟨5, 6⟩]).remap_timestamp (3/2) = some (1/2) := by
    norm_num [TimelineRemapper.remap_timestamp, TimelineRemapper.build, offsets_aux,
      bisect_right, List.insertionSort, List.orderedInsert, List.takeWhile_cons]
  have h2 : (TimelineRemapper.build [⟨1, 2⟩, ⟨5, 6⟩]).remap_timestamp (11/2) = some (3/2) := by
    norm_num [TimelineRemapper.remap_timestamp, TimelineRemapper.build, offsets_aux,
      bisect_right, List.insertionSort, List.orderedInsert, List.takeWhile_cons]
  exact claim_C3_remap_monotone [⟨1, 2⟩, ⟨5, 6⟩]
    (by norm_num [List.chain'_cons])
    (by intro s hs; fin_cases hs <;> norm_num)
    (3/2) (11/2) (1/2) (3/2) (by norm_num) h1 h2

/-! ### Claim C9 -/

/-- C9: a `TimelineRemapper` built from an empty kept-interval list returns
`None` from `remap_timestamp` for every timestamp, and consequently `None`
from `remap_event` for every event. -/
theorem claim_C9_empty_build :
    (∀ t : ℚ, (TimelineRemapper.build []).remap_timestamp t = none) ∧
    (∀ s e : ℚ, (TimelineRemapper.build []).remap_event s e = none) := by
  constructor
  · intro t; rfl
  · intro s e; rfl

/-! ### Claim C10 -/

/-- C10: for a remapper built from sorted, non-overlapping, well-formed kept
intervals whose first interval starts at a time `≥ 0`, every cumulative
offset is non-negative, the offsets are non-decreasing, and every successful
`remap_timestamp` satisfies `remap(t) ≤ t`. -/
theorem claim_C10_offsets (l : List Segment)
    (hno : List.Chain' (fun a b : Segment => a.«end» ≤ b.start) l)
    (hd : ∀ s ∈ l, s.start ≤ s.«end»)
    (h0 : ∀ h ∈ l.head?, 0 ≤ h.start) :
    (∀ o ∈ (TimelineRemapper.build l)._offsets, 0 ≤ o) ∧
    List.Chain' (· ≤ ·) (TimelineRemapper.build l)._offsets ∧
    (∀ t v, (TimelineRemapper.build l).remap_timestamp t = some v → v ≤ t) := by
  have hs := chain_start_of_nonoverlap l hno hd
  have hb := build_eq l hs
  refine ⟨?_, ?_, ?_⟩
  · rw [hb]
    exact offsets_aux_nonneg l 0 0 hno le_rfl h0
  · rw [hb]
    exact offsets_aux_chain l 0 0 hno
  · intro t v h
    obtain ⟨i, hi, _, hst, hend, hv⟩ := remap_some_spec l hno hd t v h
    have hoff := offsets_aux_getElem? l 0 0 i hi
    have hmem : (0 - 0 + (l.get ⟨i, hi⟩).start - dur_sum (l.take i)) ∈
        offsets_aux l 0 0 := List.getElem?_mem hoff
    have hpos := offsets_aux_nonneg l 0 0 hno le_rfl h0 _ hmem
    rw [hv]
    linarith

/-- C10 witness: the offset theorem applied to the concrete kept intervals
`[(1,2),(5,6)]`. -/
theorem claim_C10_witness :
    (∀ o ∈ (TimelineRemapper.build [⟨1, 2⟩, ⟨5, 6⟩])._offsets, 0 ≤ o) ∧
    List.Chain' (· ≤ ·) (TimelineRemapper.build [⟨1, 2⟩, ⟨5, 6⟩])._offsets ∧
    (∀ t v, (TimelineRemapper.build [⟨1, 2⟩, ⟨5, 6⟩]).remap_timestamp t = some v → v ≤ t) :=
  claim_C10_offsets [⟨1, 2⟩, ⟨5, 6⟩]
    (by norm_num [List.chain'_cons])
    (by intro s hs; fin_cases hs <;> norm_num)
    (by intro h hh; simp at hh; rw [← hh]; exact (by norm_num : (0:ℚ) ≤ 1))

/-! ### Evaluation helpers for concrete runs -/

lemma norm_x : normalize_token "x" ∉ default_config.filler_words := by decide

lemma norm_acc_e : normalize_token "é" ∈ default_config.filler_words := by decide

lemma norm_tipo : normalize_token "tipo" ∈ default_config.filler_words := by decide

lemma norm_ola : normalize_token "olá" ∉ default_config.filler_words := by decide

lemma norm_mundo : normalize_token "mundo" ∉ default_config.filler_words := by decide

lemma norm_tchau : normalize_token "tchau" ∉ default_config.filler_words := by decide

lemma default_pause : default_config.pause_threshold_s = 1/2 := rfl

lemma default_ctx : default_config.filler_word_context_pause = 1/4 := rfl

lemma default_min : default_config.min_segment_duration_s = 1/5 := rfl

lemma default_pad_start : default_config.segment_padding_start_s = 1/10 := rfl

lemma default_pad_end : default_config.segment_padding_end_s = 1/10 := rfl

lemma default_cut_threshold : default_config.cut_threshold = -7 := rfl

lemma default_long : default_config.score_pause_long = -10 := rfl

lemma default_medium : default_config.score_pause_medium = -7 := rfl

/-! ### Claim C8 -/

/-- C8 counterexample: on the empty word list `create_speech_segments`
returns the plain empty list, the very same value an ordinary non-empty run
can produce (a single zero-length word at 0 is dropped by the minimum
duration filter), so the empty input does not yield a distinguished error
value. -/
theorem claim_C8_counterexample :
    create_speech_segments default_config [] = [] ∧
    create_speech_segments default_config [⟨0, 0, "x"⟩] = [] := by
  constructor
  · rfl
  · norm_num [create_speech_segments, seg_loop, append_if_long,
      default_min, default_pad_start, default_pad_end, max_def]

/-- C8 (amended): for every configuration, an empty word list makes
`create_speech_segments` return the empty list (after logging a warning);
there is no distinguished error value, and the caller treats an empty result
as failure. -/
theorem claim_C8_empty_input (cfg : AnalyzerConfig) :
    create_speech_segments cfg [] = [] := rfl

/-! ### Claim C6 -/

/-- Following the spec's words (not the code): once `pause_threshold_s` is
exceeded, assign `long_pause_score` when the pause exceeds 0.8 s and
`medium_pause_score` otherwise, and cut exactly when the assigned score is
`≤ cut_score_threshold`.  The code computes no such score. -/
def spec_pause_cut (cfg : AnalyzerConfig) (pause : ℚ) : Prop :=
  cfg.pause_threshold_s ≤ pause ∧
    (if 4/5 < pause then cfg.score_pause_long else cfg.score_pause_medium) ≤
      cfg.cut_threshold

instance (cfg : AnalyzerConfig) (pause : ℚ) : Decidable (spec_pause_cut cfg pause) := by
  unfold spec_pause_cut; infer_instance

/-- C6 counterexample: with `medium_pause_score` raised to 0 (so the claimed
score rule would refuse the cut), a 0.6 s pause still cuts: the code's pause
test fires, the spec's score test does not, and the run produces two
intervals where the claimed rule predicts one. -/
theorem claim_C6_counterexample :
    pause_cut { default_config with score_pause_medium := 0 } (3/5) ∧
    ¬ spec_pause_cut { default_config with score_pause_medium := 0 } (3/5) ∧
    create_speech_segments { default_config with score_pause_medium := 0 }
      [⟨0, 1, "x"⟩, ⟨8/5, 2, "x"⟩] = [⟨0, 11/10⟩, ⟨3/2, 21/10⟩] := by
  refine ⟨?_, ?_, ?_⟩
  · rw [pause_cut]; norm_num [default_pause]
  · rw [spec_pause_cut]; norm_num [default_pause, default_cut_threshold]
  · norm_num [create_speech_segments, seg_loop, append_if_long, close_boundaries,
      cut_decision, pause_cut, filler_cut, prev_gap_exceeds, norm_x,
      default_pause, default_ctx, default_min, default_pad_start, default_pad_end,
      max_def]

/-- C6 (amended): the code marks a pause cut exactly when
`pause >= pause_threshold_s` and never consults the scores; this agrees with
the claimed score rule precisely when both `long_pause_score` and
`medium_pause_score` are `≤ cut_score_threshold`, which holds for the default
values −10, −7 and −7. -/
theorem claim_C6_pause_rule (cfg : AnalyzerConfig)
    (hlong : cfg.score_pause_long ≤ cfg.cut_threshold)
    (hmed : cfg.score_pause_medium ≤ cfg.cut_threshold)
    (pause : ℚ) :
    pause_cut cfg pause ↔ spec_pause_cut cfg pause := by
  unfold pause_cut spec_pause_cut
  constructor
  · intro h
    refine ⟨h, ?_⟩
    by_cases hp : 4/5 < pause
    · rw [if_pos hp]; exact hlong
    · rw [if_neg hp]; exact hmed
  · intro h
    exact h.1

/-- C6 witness: the amended rule instantiated at the default configuration
and a 0.6 s pause. -/
theorem claim_C6_witness :
    default_config.score_pause_long ≤ default_config.cut_threshold ∧
    default_config.score_pause_medium ≤ default_config.cut_threshold ∧
    (pause_cut default_config (3/5) ↔ spec_pause_cut default_config (3/5)) := by
  refine ⟨by norm_num [default_long, default_cut_threshold],
    by norm_num [default_medium, default_cut_threshold], ?_⟩
  exact claim_C6_pause_rule default_config
    (by norm_num [default_long, default_cut_threshold])
    (by norm_num [default_medium, default_cut_threshold]) (3/5)

/-! ### Claim C7 -/

/-- C7: whenever the current word's normalised text is a filler and either
the pause to the next word exceeds `filler_context_pause_s` or the gap from
the previous word to the current one exceeds it, the loop marks a cut at this
pair — no assumption about `pause_threshold_s` is needed. -/
theorem claim_C7_filler_cut (cfg : AnalyzerConfig) (prev : Option Word)
    (cur nxt : Word)
    (hfill : normalize_token cur.word ∈ cfg.filler_words)
    (hctx : cfg.filler_word_context_pause < nxt.start - cur.«end» ∨
      prev_gap_exceeds cfg prev cur) :
    cut_decision cfg prev cur nxt ∧
    (∀ (rest : List Word) (current_start : ℚ) (segs : List Segment),
      seg_loop cfg prev cur (nxt :: rest) current_start segs =
        seg_loop cfg (some cur) nxt rest (close_boundaries cfg cur nxt).2
          (append_if_long cfg segs current_start (close_boundaries cfg cur nxt).1)) := by
  have hcut : cut_decision cfg prev cur nxt := Or.inr ⟨hfill, hctx⟩
  refine ⟨hcut, ?_⟩
  intro rest current_start segs
  rw [seg_loop, if_pos hcut]

/-- C7 witness: Scenario B — the filler word `tipo` at `(2.0, 2.3)` followed
by a 0.3 s pause (> 0.25 s context pause, < 0.5 s pause threshold) triggers a
cut. -/
theorem claim_C7_witness :
    cut_decision default_config none ⟨2, 23/10, "tipo"⟩ ⟨13/5, 3, "x"⟩ ∧
    (∀ (rest : List Word) (current_start : ℚ) (segs : List Segment),
      seg_loop default_config none ⟨2, 23/10, "tipo"⟩ (⟨13/5, 3, "x"⟩ :: rest)
          current_start segs =
        seg_loop default_config (some ⟨2, 23/10, "tipo"⟩) ⟨13/5, 3, "x"⟩ rest
          (close_boundaries default_config ⟨2, 23/10, "tipo"⟩ ⟨13/5, 3, "x"⟩).2
          (append_if_long default_config segs current_start
            (close_boundaries default_config ⟨2, 23/10, "tipo"⟩ ⟨13/5, 3, "x"⟩).1)) :=
  claim_C7_filler_cut default_config none ⟨2, 23/10, "tipo"⟩ ⟨13/5, 3, "x"⟩
    norm_tipo
    (Or.inl (by rw [default_ctx]; norm_num))

/-! ### Claim C1 -/

/-- Following the spec's words (not the code): the loop of the *exact*,
unpadded list of `SegmentResult` — same cut decisions, no margins, exact
start tracking reset to `nxt.start`.  No such list is produced by the code. -/
def spec_exact_loop (cfg : AnalyzerConfig) :
    Option Word → Word → List Word → ℚ → List Segment → List Segment
  | _, cur, [], current_start_exact, segs =>
      append_if_long cfg segs current_start_exact cur.«end»
  | prev, cur, nxt :: rest, current_start_exact, segs =>
      if cut_decision cfg prev cur nxt then
        spec_exact_loop cfg (some cur) nxt rest nxt.start
          (append_if_long cfg segs current_start_exact cur.«end»)
      else
        spec_exact_loop cfg (some cur) nxt rest current_start_exact segs

/-- Following the spec's words (not the code): the exact interval list starts
tracking at the first word's start, with no margin. -/
def spec_exact_segments (cfg : AnalyzerConfig) (words : List Word) :
    List Segment :=
  match words with
  | [] => []
  | w :: rest => spec_exact_loop cfg none w rest w.start []

/-- C1 counterexample: `create_speech_segments` returns a single list, and on
the one-word input `(1, 2)` that list is the padded `[(0.9, 2.1)]`, which
differs from the exact, unpadded list `[(1, 2)]` the claim requires as a
second parallel output; no exact list is produced by the operation. -/
theorem claim_C1_counterexample :
    create_speech_segments default_config [⟨1, 2, "x"⟩] = [⟨9/10, 21/10⟩] ∧
    spec_exact_segments default_config [⟨1, 2, "x"⟩] = [⟨1, 2⟩] ∧
    ([⟨9/10, 21/10⟩] : List Segment) ≠ [⟨1, 2⟩] := by
  refine ⟨?_, ?_, ?_⟩
  · norm_num [create_speech_segments, seg_loop, append_if_long,
      default_min, default_pad_start, default_pad_end, max_def]
  · norm_num [spec_exact_segments, spec_exact_loop, append_if_long, default_min]
  · intro h
    have := (List.cons.injEq _ _ _ _).mp h
    have h1 : (9:ℚ)/10 = 1 := congrArg Segment.start this.1
    norm_num at h1

/-- C1 (amended): the segment selection operation returns one list only: on a
single-word input satisfying the minimum-duration filter it is the padded
interval `[(max 0 (start - start_margin), end + end_margin)]`; no separate
exact/unpadded list is produced, and the same padded list is consumed
downstream for both video cutting and subtitle timing. -/
theorem claim_C1_single_padded_list (cfg : AnalyzerConfig) (w : Word)
    (hdur : cfg.min_segment_duration_s ≤
      (w.«end» + cfg.segment_padding_end_s) -
        max 0 (w.start - cfg.segment_padding_start_s)) :
    create_speech_segments cfg [w] =
      [⟨max 0 (w.start - cfg.segment_padding_start_s),
        w.«end» + cfg.segment_padding_end_s⟩] := by
  unfold create_speech_segments seg_loop append_if_long
  rw [if_pos hdur]
  rfl

/-- C1 witness: the amended statement at the default configuration and the
word `(1, 2)`. -/
theorem claim_C1_witness :
    default_config.min_segment_duration_s ≤
      (((2:ℚ)) + default_config.segment_padding_end_s) -
        max 0 (1 - default_config.segment_padding_start_s) ∧
    create_speech_segments default_config [⟨1, 2, "x"⟩] =
      [⟨max 0 (1 - default_config.segment_padding_start_s),
        2 + default_config.segment_padding_end_s⟩] := by
  have hdur : default_config.min_segment_duration_s ≤
      (((2:ℚ)) + default_config.segment_padding_end_s) -
        max 0 (1 - default_config.segment_padding_start_s) := by
    norm_num [default_min, default_pad_start, default_pad_end, max_def]
  exact ⟨hdur, claim_C1_single_padded_list default_config ⟨1, 2, "x"⟩ hdur⟩

/-! ### Claim C4 -/

/-- C4 counterexample: on the one-word input `(1, 2)` the selector emits
exactly one interval `(0.9, 2.1)` spanning the entire input, yet the remapper
built from that single-interval list maps the in-range timestamp `1.5` to
`0.6`, not `1.5` (the interval's start, 0.9, is subtracted). -/
theorem claim_C4_counterexample :
    create_speech_segments default_config [⟨1, 2, "x"⟩] = [⟨9/10, 21/10⟩] ∧
    (TimelineRemapper.build [⟨9/10, 21/10⟩]).remap_timestamp (3/2) = some (3/5) ∧
    some ((3:ℚ)/5) ≠ some ((3:ℚ)/2) := by
  refine ⟨?_, ?_, by norm_num⟩
  · norm_num [create_speech_segments, seg_loop, append_if_long,
      default_min, default_pad_start, default_pad_end, max_def]
  · norm_num [TimelineRemapper.remap_timestamp, TimelineRemapper.build, offsets_aux,
      bisect_right, List.insertionSort, List.orderedInsert, List.takeWhile_cons]

/-- C4 (amended): if the selector emits exactly one interval and that
interval starts at time 0, then the remapper built from it is the identity on
the whole interval; in general the single interval's start is subtracted. -/
theorem claim_C4_identity_when_zero_start (cfg : AnalyzerConfig)
    (ws : List Word) (seg : Segment)
    (hsel : create_speech_segments cfg ws = [seg])
    (h0 : seg.start = 0) (t : ℚ) (ht0 : 0 ≤ t) (hte : t ≤ seg.«end») :
    (TimelineRemapper.build [seg]).remap_timestamp t = some t := by
  obtain ⟨s, e⟩ := seg
  simp only at h0
  subst h0
  unfold TimelineRemapper.build TimelineRemapper.remap_timestamp
  simp only [List.insertionSort, List.orderedInsert, List.map_cons, List.map_nil,
    offsets_aux]
  rw [if_neg (by simp)]
  have hb : bisect_right [(0:ℚ)] t = 1 := by
    simp [bisect_right, List.takeWhile_cons, decide_eq_true ht0]
  rw [hb]
  simp only at hte
  simp [hte, not_lt.mpr hte]

/-- C4 witness: the identity statement at the one-word input `(0.05, 1)`,
whose single emitted interval is clamped to start at 0. -/
theorem claim_C4_witness :
    create_speech_segments default_config [⟨1/20, 1, "x"⟩] = [⟨0, 11/10⟩] ∧
    (TimelineRemapper.build [⟨0, 11/10⟩]).remap_timestamp (1/2) = some (1/2) := by
  have hsel : create_speech_segments default_config [⟨1/20, 1, "x"⟩] = [⟨0, 11/10⟩] := by
    norm_num [create_speech_segments, seg_loop, append_if_long,
      default_min, default_pad_start, default_pad_end, max_def]
  refine ⟨hsel, ?_⟩
  exact claim_C4_identity_when_zero_start default_config [⟨1/20, 1, "x"⟩]
    ⟨0, 11/10⟩ hsel rfl (1/2) (by norm_num) (by norm_num : (1:ℚ)/2 ≤ 11/10)

/-! ### Claim C5 -/

lemma append_if_long_append (cfg : AnalyzerConfig) (segs : List Segment)
    (st en : ℚ) :
    append_if_long cfg segs st en = segs ++ append_if_long cfg [] st en := by
  unfold append_if_long
  split_ifs <;> simp

/-- Accumulator re-association: running the loop with already-emitted
segments prepends them to the result of the loop started empty. -/
lemma seg_loop_acc (cfg : AnalyzerConfig) :
    ∀ (rest : List Word) (prev : Option Word) (cur : Word) (C : ℚ)
      (segs : List Segment),
      seg_loop cfg prev cur rest C segs = segs ++ seg_loop cfg prev cur rest C []
  | [], prev, cur, C, segs => by
      simp only [seg_loop]
      exact append_if_long_append cfg segs C _
  | nxt :: rest, prev, cur, C, segs => by
      by_cases h : cut_decision cfg prev cur nxt
      · simp only [seg_loop]
        rw [if_pos h, if_pos h]
        rw [seg_loop_acc cfg rest (some cur) nxt (close_boundaries cfg cur nxt).2
          (append_if_long cfg segs C (close_boundaries cfg cur nxt).1)]
        rw [seg_loop_acc cfg rest (some cur) nxt (close_boundaries cfg cur nxt).2
          (append_if_long cfg [] C (close_boundaries cfg cur nxt).1)]
        rw [append_if_long_append cfg segs]
        rw [List.append_assoc]
      · simp only [seg_loop]
        rw [if_neg h, if_neg h]
        exact seg_loop_acc cfg rest (some cur) nxt C segs

/-- On a cut between non-overlapping words, the closed segment end sits
between `cur.end` and the next start candidate, which never exceeds
`nxt.start`. -/
lemma close_boundaries_spec (cfg : AnalyzerConfig)
    (hps : 0 ≤ cfg.segment_padding_start_s) (hpe : 0 ≤ cfg.segment_padding_end_s)
    (cur nxt : Word) (hpause : cur.«end» ≤ nxt.start) :
    cur.«end» ≤ (close_boundaries cfg cur nxt).1 ∧
    (close_boundaries cfg cur nxt).1 ≤ (close_boundaries cfg cur nxt).2 ∧
    (close_boundaries cfg cur nxt).2 ≤ nxt.start := by
  simp only [close_boundaries]
  split_ifs with h
  · refine ⟨by linarith, le_rfl, by linarith⟩
  · push_neg at h
    refine ⟨?_, ?_, ?_⟩ <;> dsimp only <;> linarith

/-- Loop invariant: started at `C ≤ cur.start` on a non-overlapping,
well-formed word suffix, the loop emits only segments starting at or after
`C`, pairwise non-overlapping, each passing the minimum-duration filter. -/
lemma seg_loop_invariant (cfg : AnalyzerConfig)
    (hps : 0 ≤ cfg.segment_padding_start_s)
    (hpe : 0 ≤ cfg.segment_padding_end_s) :
    ∀ (rest : List Word) (prev : Option Word) (cur : Word) (C : ℚ),
      List.Chain' (fun a b : Word => a.«end» ≤ b.start) (cur :: rest) →
      (∀ u ∈ cur :: rest, u.start ≤ u.«end») →
      C ≤ cur.start →
      (∀ s ∈ seg_loop cfg prev cur rest C [], C ≤ s.start) ∧
      List.Chain' (fun a b : Segment => a.«end» ≤ b.start)
        (seg_loop cfg prev cur rest C []) ∧
      (∀ s ∈ seg_loop cfg prev cur rest C [],
        cfg.min_segment_duration_s ≤ s.«end» - s.start)
  | [], prev, cur, C, _, _, _ => by
      simp only [seg_loop, append_if_long]
      split_ifs with h
      · refine ⟨?_, List.chain'_singleton _, ?_⟩
        · intro s hs
          rw [List.nil_append, List.mem_singleton] at hs
          rw [hs]
        · intro s hs
          rw [List.nil_append, List.mem_singleton] at hs
          rw [hs]
          exact h
      · exact ⟨by simp, List.chain'_nil, by simp⟩
  | nxt :: rest, prev, cur, C, hch, hwf, hC => by
      have hch' : List.Chain' (fun a b : Word => a.«end» ≤ b.start) (nxt :: rest) :=
        (List.chain'_cons'.mp hch).2
      have hpause : cur.«end» ≤ nxt.start :=
        (List.chain'_cons'.mp hch).1 nxt rfl
      have hwf' : ∀ u ∈ nxt :: rest, u.start ≤ u.«end» :=
        fun u hu => hwf u (List.mem_cons_of_mem cur hu)
      have hcurwf : cur.start ≤ cur.«end» := hwf cur (List.mem_cons_self cur _)
      by_cases h : cut_decision cfg prev cur nxt
      · obtain ⟨hE1, hE2, hE3⟩ := close_boundaries_spec cfg hps hpe cur nxt hpause
        have hCc : C ≤ (close_boundaries cfg cur nxt).2 := by linarith
        have hCE : C ≤ (close_boundaries cfg cur nxt).1 := by linarith
        have hnext : (close_boundaries cfg cur nxt).2 ≤ nxt.start := hE3
        obtain ⟨ihlb, ihch, ihdur⟩ :=
          seg_loop_invariant cfg hps hpe rest (some cur) nxt
            (close_boundaries cfg cur nxt).2 hch' hwf' hnext
        simp only [seg_loop]
        rw [if_pos h]
        rw [seg_loop_acc cfg rest (some cur) nxt (close_boundaries cfg cur nxt).2
          (append_if_long cfg [] C (close_boundaries cfg cur nxt).1)]
        simp only [append_if_long, List.nil_append]
        split_ifs with hdur
        · rw [List.singleton_append]
          refine ⟨?_, ?_, ?_⟩
          · intro s hs
            rcases List.mem_cons.mp hs with rfl | hs'
            · exact le_rfl
            · exact le_trans hCc (ihlb s hs')
          · rw [List.chain'_cons']
            refine ⟨?_, ihch⟩
            intro y hy
            exact le_trans hE2 (ihlb y (List.mem_of_mem_head? hy))
          · intro s hs
            rcases List.mem_cons.mp hs with rfl | hs'
            · exact hdur
            · exact ihdur s hs'
        · exact ⟨fun s hs => le_trans hCc (ihlb s hs), ihch, ihdur⟩
      · have hCn : C ≤ nxt.start := by linarith
        obtain ⟨ihlb, ihch, ihdur⟩ :=
          seg_loop_invariant cfg hps hpe rest (some cur) nxt C hch' hwf' hCn
        simp only [seg_loop]
        rw [if_neg h]
        exact ⟨ihlb, ihch, ihdur⟩

/-- C5 counterexample: a start-sorted word list with non-negative times (but
with overlapping words, which the claim does not exclude) whose padded output
violates `padded[0].end <= padded[1].start`: the long filler word `é`
spanning `(0.5, 100)` is cut with a negative pause, so the midpoint rule
closes the first interval at `50.3`, far beyond the later boundaries. -/
theorem claim_C5_counterexample :
    List.Chain' (fun a b : Word => a.start ≤ b.start)
      [⟨0, 1/100, "x"⟩, ⟨1/2, 100, "é"⟩, ⟨3/5, 7/10, "x"⟩, ⟨24/25, 97/100, "tipo"⟩,
       ⟨49/50, 2, "x"⟩, ⟨200, 201, "x"⟩] ∧
    (∀ u ∈ [⟨0, 1/100, "x"⟩, ⟨1/2, 100, "é"⟩, ⟨3/5, 7/10, "x"⟩,
        ⟨24/25, 97/100, "tipo"⟩, ⟨49/50, 2, "x"⟩, (⟨200, 201, "x"⟩ : Word)],
      0 ≤ u.start ∧ 0 ≤ u.«end») ∧
    create_speech_segments default_config
      [⟨0, 1/100, "x"⟩, ⟨1/2, 100, "é"⟩, ⟨3/5, 7/10, "x"⟩, ⟨24/25, 97/100, "tipo"⟩,
       ⟨49/50, 2, "x"⟩, ⟨200, 201, "x"⟩] =
      [⟨0, 503/10⟩, ⟨39/40, 21/10⟩, ⟨1999/10, 2011/10⟩] ∧
    ¬ List.Chain' (fun a b : Segment => a.«end» ≤ b.start)
      [⟨0, 503/10⟩, ⟨39/40, 21/10⟩, ⟨1999/10, 2011/10⟩] := by
  refine ⟨?_, ?_, ?_, ?_⟩
  · norm_num [List.chain'_cons]
  · intro u hu; fin_cases hu <;> norm_num
  · norm_num [create_speech_segments, seg_loop, append_if_long, close_boundaries,
      cut_decision, pause_cut, filler_cut, prev_gap_exceeds,
      norm_x, norm_acc_e, norm_tipo,
      default_pause, default_ctx, default_min, default_pad_start, default_pad_end,
      max_def]
  · norm_num [List.chain'_cons]

/-- C5 (amended): for every non-empty, start-sorted word sequence with
non-negative word times in which consecutive words do not overlap (each
word's end is at or before the next word's start), and with non-negative
margins and minimum duration as in the defaults, the emitted list satisfies
all three invariants: adjacent intervals do not overlap, starts are
non-decreasing, and every duration passes the minimum-duration filter. -/
theorem claim_C5_padded_invariants (cfg : AnalyzerConfig)
    (hmin : 0 ≤ cfg.min_segment_duration_s)
    (hps : 0 ≤ cfg.segment_padding_start_s)
    (hpe : 0 ≤ cfg.segment_padding_end_s)
    (w : Word) (ws : List Word)
    (hch : List.Chain' (fun a b : Word => a.«end» ≤ b.start) (w :: ws))
    (hwf : ∀ u ∈ w :: ws, u.start ≤ u.«end»)
    (h0 : 0 ≤ w.start) :
    List.Chain' (fun a b : Segment => a.«end» ≤ b.start)
      (create_speech_segments cfg (w :: ws)) ∧
    List.Chain' (fun a b : Segment => a.start ≤ b.start)
      (create_speech_segments cfg (w :: ws)) ∧
    (∀ s ∈ create_speech_segments cfg (w :: ws),
      cfg.min_segment_duration_s ≤ s.«end» - s.start) := by
  have hC : max 0 (w.start - cfg.segment_padding_start_s) ≤ w.start := by
    rw [max_le_iff]
    constructor
    · exact h0
    · linarith
  have hrun : create_speech_segments cfg (w :: ws) =
      seg_loop cfg none w ws (max 0 (w.start - cfg.segment_padding_start_s)) [] := rfl
  obtain ⟨_, hchain, hdur⟩ :=
    seg_loop_invariant cfg hps hpe ws none w
      (max 0 (w.start - cfg.segment_padding_start_s)) hch hwf hC
  rw [hrun]
  refine ⟨hchain, ?_, hdur⟩
  refine chain_start_of_nonoverlap _ hchain ?_
  intro s hs
  have := hdur s hs
  linarith

/-- C5 witness: the invariants instantiated on the Scenario A words, whose
padded output is `[(0, 1.1), (2.9, 3.6)]`. -/
theorem claim_C5_witness :
    List.Chain' (fun a b : Segment => a.«end» ≤ b.start)
      (create_speech_segments default_config
        [⟨0, 1/2, "olá"⟩, ⟨1/2, 1, "mundo"⟩, ⟨3, 7/2, "tchau"⟩]) ∧
    List.Chain' (fun a b : Segment => a.start ≤ b.start)
      (create_speech_segments default_config
        [⟨0, 1/2, "olá"⟩, ⟨1/2, 1, "mundo"⟩, ⟨3, 7/2, "tchau"⟩]) ∧
    (∀ s ∈ create_speech_segments default_config
        [⟨0, 1/2, "olá"⟩, ⟨1/2, 1, "mundo"⟩, ⟨3, 7/2, "tchau"⟩],
      default_config.min_segment_duration_s ≤ s.«end» - s.start) :=
  claim_C5_padded_invariants default_config
    (by norm_num [default_min]) (by norm_num [default_pad_start])
    (by norm_num [default_pad_end]) ⟨0, 1/2, "olá"⟩
    [⟨1/2, 1, "mundo"⟩, ⟨3, 7/2, "tchau"⟩]
    (by norm_num [List.chain'_cons])
    (by intro u hu; fin_cases hu <;> norm_num)
    (by norm_num)
